import Mathlib

/-
  Verification development for the cucumber-java-easy-runner repository.

  The definitions below are a shallow embedding of the repository's
  document parser (src/extension.ts: parseFeatureFile, findExampleRowInfo),
  its path matcher (testResultMapper: normalizePath, isSameFeaturePath),
  and its result reconciler (testResultMapper: parseResultFileForFeature,
  hasFeatureFailures, waitForValidJsonFile).

  JavaScript strings are modelled through their character lists; the
  js-prefixed helpers model the corresponding JavaScript string methods
  (trim, startsWith, endsWith, substring/drop, toLowerCase, split, join)
  restricted to the ASCII inputs the code manipulates.  JavaScript's
  `x || d` default on strings and numbers (falsy on "" and 0) is modelled
  by jsOrStr and jsOrNat.
-/

namespace CucumberRunner

/-- Models JavaScript String.prototype.startsWith on character lists:
the second list is a leading segment of the first. -/
def lstartsWith : List Char → List Char → Bool
  | _, [] => true
  | [], _ :: _ => false
  | a :: as, c :: cs => a == c && lstartsWith as cs

/-- Whitespace characters removed by JavaScript String.prototype.trim
(ASCII fragment). -/
def isJsWs (c : Char) : Bool :=
  c == ' ' || c == '\t' || c == '\n' || c == '\r' || c == '\x0b' || c == '\x0c'

/-- Trim on character lists (both ends). -/
def ltrim (cs : List Char) : List Char :=
  ((cs.dropWhile isJsWs).reverse.dropWhile isJsWs).reverse

/-- Models JavaScript s.trim(). -/
def jsTrim (s : String) : String := ⟨ltrim s.data⟩

/-- Models JavaScript s.startsWith(p). -/
def jsStartsWith (s p : String) : Bool := lstartsWith s.data p.data

/-- Models JavaScript s.endsWith(p). -/
def jsEndsWith (s p : String) : Bool := lstartsWith s.data.reverse p.data.reverse

/-- Models JavaScript s.substring(n): drop the first n characters. -/
def jsDrop (s : String) (n : Nat) : String := ⟨s.data.drop n⟩

/-- ASCII lower-casing of one character, as JavaScript toLowerCase does on
ASCII letters. -/
def lowerChar (c : Char) : Char :=
  if 'A' ≤ c ∧ c ≤ 'Z' then Char.ofNat (c.toNat + 32) else c

/-- Models JavaScript s.toLowerCase() on ASCII strings. -/
def jsToLower (s : String) : String := ⟨s.data.map lowerChar⟩

/-- Split of a character list on a separator character, keeping empty
segments, exactly as JavaScript String.prototype.split does. -/
def splitOnChar (sep : Char) : List Char → List (List Char)
  | [] => [[]]
  | c :: rest =>
    let r := splitOnChar sep rest
    if c == sep then [] :: r
    else
      match r with
      | h :: t => (c :: h) :: t
      | [] => [[c]]

/-- Models JavaScript s.split(sep) for a one-character separator. -/
def jsSplit (s : String) (sep : Char) : List String :=
  (splitOnChar sep s.data).map fun cs => ⟨cs⟩

/-- Models JavaScript text.split(newline), the line splitter used by the
document parser. -/
def jsSplitLines (text : String) : List String := jsSplit text '\n'

/-- Models JavaScript parts.join(slash). -/
def joinSlash : List String → String
  | [] => ""
  | [s] => s
  | s :: rest => s ++ "/" ++ joinSlash rest

/-- Models the JavaScript default `o || d` on an optional string: both a
missing value and the empty string fall back to the default. -/
def jsOrStr (o : Option String) (d : String) : String :=
  match o with
  | some s => if s = "" then d else s
  | none => d

/-- Models the JavaScript default `o || d` on an optional number: both a
missing value and 0 fall back to the default. -/
def jsOrNat (o : Option Nat) (d : Nat) : Nat :=
  match o with
  | some n => if n = 0 then d else n
  | none => d

/-! ### Document parser (src/extension.ts) -/

/-- One accepted example data row (models.ts ExampleRow: lineNumber, data). -/
structure ExampleInfo where
  lineNumber : Nat
  data : String
deriving Repr, DecidableEq

/-- One parsed scenario (models.ts ScenarioDefinition restricted to the
fields parseFeatureFile populates). -/
structure ScenarioInfo where
  name : String
  lineNumber : Nat
  examples : List ExampleInfo
deriving Repr, DecidableEq

/-- The parsed feature (models.ts ParsedFeature restricted to the fields
parseFeatureFile populates from the text; filePath is external input). -/
structure FeatureInfo where
  name : String
  scenarios : List ScenarioInfo
  lineNumber : Nat
deriving Repr, DecidableEq

/-- The trimmed text of line i, as every scan in extension.ts computes it
(lines are read with an in-bounds index; out of range defaults to ""). -/
def lineAt (lines : List String) (i : Nat) : String := jsTrim (lines.getD i "")

/-- Line i, trimmed, starts with the Examples keyword. -/
def isExamplesAt (lines : List String) (i : Nat) : Bool :=
  jsStartsWith (lineAt lines i) "Examples:"

/-- Line i, trimmed, starts with the table delimiter. -/
def isTableAt (lines : List String) (i : Nat) : Bool :=
  jsStartsWith (lineAt lines i) "|"

/-- Line i, trimmed, starts with the Scenario Outline keyword. -/
def isOutlineAt (lines : List String) (i : Nat) : Bool :=
  jsStartsWith (lineAt lines i) "Scenario Outline:"

/-- Line i, trimmed, starts with the Feature keyword. -/
def isFeatureAt (lines : List String) (i : Nat) : Bool :=
  jsStartsWith (lineAt lines i) "Feature:"

/-- Line i, trimmed, opens a scenario (plain or outline). -/
def isScenHeadAt (lines : List String) (i : Nat) : Bool :=
  jsStartsWith (lineAt lines i) "Scenario:" ||
    jsStartsWith (lineAt lines i) "Scenario Outline:"

/-- Backward scan from index i (inclusive) down to 0 for the nearest index
satisfying p, as the `for (let i = currentLine; i >= 0; i--)` loops of
findExampleRowInfo do. -/
def scanBack (p : Nat → Bool) : Nat → Option Nat
  | 0 => if p 0 then some 0 else none
  | i + 1 => if p (i + 1) then some (i + 1) else scanBack p i

/-- Forward scan worker: n indices starting at i. -/
def scanFwdGo (p : Nat → Bool) : Nat → Nat → Option Nat
  | 0, _ => none
  | n + 1, i => if p i then some i else scanFwdGo p n (i + 1)

/-- Forward scan from index i (inclusive) up to len (exclusive) for the
first index satisfying p, as the `for (let i = examplesLine + 1;
i < lines.length; i++)` loop of findExampleRowInfo does. -/
def scanFwd (p : Nat → Bool) (len i : Nat) : Option Nat :=
  scanFwdGo p (len - i) i

/-- Embedding of findExampleRowInfo (extension.ts and the identical copy in
FeatureFileActionButtons): classify the candidate line `currentLine`,
returning the owning outline's 1-indexed line on acceptance. -/
def findExampleRowInfo (lines : List String) (currentLine : Nat) : Option Nat :=
  match scanBack (fun k => isExamplesAt lines k) currentLine with
  | none => none
  | some e =>
    match scanFwd (fun k => isTableAt lines k) lines.length (e + 1) with
    | none => none
    | some h =>
      if currentLine ≤ h then none
      else
        match scanBack (fun k => isOutlineAt lines k) e with
        | none => none
        | some s => some (s + 1)

/-- The mutable locals of parseFeatureFile's loop.  The scenarios list is
kept reversed: its head is the "current" scenario, which in the source is
always the most recently pushed element of the scenarios array. -/
structure ParseState where
  featureName : String
  featureLineNumber : Nat
  revScenarios : List ScenarioInfo
deriving Repr, DecidableEq

/-- Append an example row to the current (most recently opened) scenario. -/
def pushExample (ss : List ScenarioInfo) (ex : ExampleInfo) : List ScenarioInfo :=
  match ss with
  | [] => []
  | c :: rest => { c with examples := c.examples ++ [ex] } :: rest

/-- One iteration of parseFeatureFile's loop body on line index i. -/
def parseStep (lines : List String) (i : Nat) (st : ParseState) : ParseState :=
  let line := lineAt lines i
  if jsStartsWith line "Feature:" then
    { st with featureName := jsTrim (jsDrop line 8), featureLineNumber := i + 1 }
  else if jsStartsWith line "Scenario:" then
    { st with revScenarios := ⟨jsTrim (jsDrop line 9), i + 1, []⟩ :: st.revScenarios }
  else if jsStartsWith line "Scenario Outline:" then
    { st with revScenarios :=
        ⟨jsTrim (jsDrop line 17) ++ " (Outline)", i + 1, []⟩ :: st.revScenarios }
  else if jsStartsWith line "|" && !st.revScenarios.isEmpty && decide (0 < i) then
    match findExampleRowInfo lines i with
    | some _ => { st with revScenarios := pushExample st.revScenarios ⟨i + 1, line⟩ }
    | none => st
  else st

/-- parseFeatureFile's loop: n iterations starting at line index i. -/
def parseLines (lines : List String) : Nat → Nat → ParseState → ParseState
  | 0, _, st => st
  | n + 1, i, st => parseLines lines n (i + 1) (parseStep lines i st)

/-- Embedding of parseFeatureFile on an already split line list. -/
def parseFeatureLines (lines : List String) : Option FeatureInfo :=
  let st := parseLines lines lines.length 0 ⟨"", 0, []⟩
  if st.featureName = "" then none
  else some ⟨st.featureName, st.revScenarios.reverse, st.featureLineNumber⟩

/-- Embedding of parseFeatureFile (extension.ts, lines 200-251): split the
document text on newlines, scan every line, and return null when no
non-empty feature name was recorded. -/
def parseFeatureFile (text : String) : Option FeatureInfo :=
  parseFeatureLines (jsSplitLines text)

/-! ### Specification-side index arithmetic for the parser theorems -/

/-- The list of n consecutive indices starting at i. -/
def idxFrom (i : Nat) : Nat → List Nat
  | 0 => []
  | n + 1 => i :: idxFrom (i + 1) n

/-- All 0-based indices of lines whose trimmed form opens a scenario,
in document order. -/
def scenarioHeadingIdxs (lines : List String) : List Nat :=
  (idxFrom 0 lines.length).filter fun k => isScenHeadAt lines k

/-- All 0-based indices of lines whose trimmed form starts with the
Feature keyword, in document order. -/
def featureIdxs (lines : List String) : List Nat :=
  (idxFrom 0 lines.length).filter fun k => isFeatureAt lines k

/-- The feature name the parser would record from line i: the trimmed line
with the 8-character keyword removed, trimmed again. -/
def featureNameAt (lines : List String) (i : Nat) : String :=
  jsTrim (jsDrop (lineAt lines i) 8)

/-- Last element of a list, if any. -/
def lastElem : List α → Option α
  | [] => none
  | [a] => some a
  | _ :: rest => lastElem rest

/-- Threads repeated overwrites of a single variable: starting from d,
write f j for each index j in order and keep the final value. -/
def lastWrite (d : α) (f : Nat → α) : List Nat → α
  | [] => d
  | j :: rest => lastWrite (f j) f rest

/-! ### Path matcher (testResultMapper: normalizePath, isSameFeaturePath) -/

/-- Embedding of normalizePath: strip a leading file:// then file: scheme,
turn backslashes into slashes, strip a leading ./ then a leading /, and
lower-case the result.  Each regex of the source is anchored at the start
and applied once, in this order. -/
def normalizePath (filePath : String) : String :=
  let s1 := if jsStartsWith filePath "file://" then jsDrop filePath 7 else filePath
  let s2 := if jsStartsWith s1 "file:" then jsDrop s1 5 else s1
  let s3 : String := ⟨s2.data.map fun c => if c == '\\' then '/' else c⟩
  let s4 := if jsStartsWith s3 "./" then jsDrop s3 2 else s3
  let s5 := if jsStartsWith s4 "/" then jsDrop s4 1 else s4
  jsToLower s5

/-- Embedding of isSameFeaturePath(fullPath, relativePath).  The first
argument is the target feature file path (the editor's path) and the second
the identity found in the report; the two tolerant rules only ever allow
the second argument to be a suffix of the first. -/
def isSameFeaturePath (fullPath relativePath : String) : Bool :=
  let nf := normalizePath fullPath
  let nr := normalizePath relativePath
  if nf = nr then true
  else if jsEndsWith nf ("/" ++ nr) then true
  else
    let fp := jsSplit nf '/'
    let rp := jsSplit nr '/'
    if fp.getLast? ≠ rp.getLast? then false
    else if rp.length ≤ fp.length then
      decide (joinSlash (fp.drop (fp.length - rp.length)) = nr)
    else false

/-! ### Run report data model (cucumber JSON, as consumed by
testResultMapper).  Every field the source reads through optional chaining
or truthiness guards is an Option. -/

/-- The result record of a hook. -/
structure HookResult where
  status : String
  error_message : Option String
deriving Repr, DecidableEq

/-- One before/after hook of a scenario element.  location models the
source's hook.match?.location (match is a Lean keyword). -/
structure Hook where
  result : Option HookResult
  location : Option String
deriving Repr, DecidableEq

/-- The result record of a step. -/
structure StepResult where
  status : Option String
  error_message : Option String
deriving Repr, DecidableEq

/-- One step of a scenario element. -/
structure Step where
  name : Option String
  keyword : Option String
  line : Option Nat
  result : Option StepResult
deriving Repr, DecidableEq

/-- One scenario-like element of a report feature entry. -/
structure Element where
  type : Option String
  name : Option String
  line : Option Nat
  before : Option (List Hook)
  after : Option (List Hook)
  steps : Option (List Step)
deriving Repr, DecidableEq

/-- One per-file entry of the report array. -/
structure ReportFeature where
  uri : Option String
  id : Option String
  elements : Option (List Element)
deriving Repr, DecidableEq

/-- The identity the source reads from an entry:
feature?.uri || feature?.id || the empty string. -/
def featurePathOf (f : ReportFeature) : String :=
  jsOrStr f.uri (jsOrStr f.id "")

/-! ### Result reconciler (testResultMapper: parseResultFileForFeature) -/

/-- The representative failure descriptor built per failed scenario. -/
structure FailedStepInfo where
  name : String
  errorMessage : String
  line : Nat
deriving Repr, DecidableEq

/-- The reconciled outcome pushed per scenario element.  line is the raw
scenario.line value from the report, which the source stores unchecked. -/
structure ScenarioResult where
  name : String
  line : Option Nat
  passed : Bool
  failedStep : Option FailedStepInfo
deriving Repr, DecidableEq

/-- True when the hook carries a result whose status is not passed: the
`hook.result && hook.result.status !== 'passed'` test of the source. -/
def hookFails (h : Hook) : Bool :=
  match h.result with
  | some r => decide (r.status ≠ "passed")
  | none => false

/-- First hook (with its result) that fails, as both hook loops of the
source find it before breaking; hooks without a result are skipped. -/
def findFailingHook : List Hook → Option (Hook × HookResult)
  | [] => none
  | h :: rest =>
    match h.result with
    | some r => if r.status = "passed" then findFailingHook rest else some (h, r)
    | none => findFailingHook rest

/-- The failure descriptor synthesized from a failing hook: label, message
composed from the hook location and its error text (or a synthesized
status message), at the given line. -/
def mkHookFailure (label : String) (h : Hook) (r : HookResult) (line : Nat) :
    FailedStepInfo :=
  { name := label,
    errorMessage := "Hook Location: " ++ jsOrStr h.location "Unknown location"
      ++ "\n\n" ++ jsOrStr r.error_message ("Hook failed with status: " ++ r.status),
    line := line }

/-- The defaulted step status the loop reads:
step?.result?.status || the string no result. -/
def stepStatusOf (s : Step) : String :=
  jsOrStr (s.result.bind StepResult.status) "no result"

/-- The failure descriptor built from the first failing step. -/
def mkStepFailure (scLine : Option Nat) (s : Step) (status : String) :
    FailedStepInfo :=
  { name := jsTrim (jsOrStr s.keyword "") ++ " " ++ jsOrStr s.name "Unknown step",
    errorMessage := jsOrStr (s.result.bind StepResult.error_message)
      ("Step " ++ status),
    line := jsOrNat s.line (jsOrNat scLine 0) }

/-- The step loop of parseResultFileForFeature: a passed step continues the
scan, any other status clears the passed flag, and a status that is also
not skipped breaks with that step as the failure. -/
def stepScan (scLine : Option Nat) : List Step → Bool → Bool × Option FailedStepInfo
  | [], passed => (passed, none)
  | s :: rest, passed =>
    let status := stepStatusOf s
    if status = "passed" then stepScan scLine rest passed
    else if status = "skipped" then stepScan scLine rest false
    else (false, some (mkStepFailure scLine s status))

/-- Raw skipped test used by the all-steps-skipped check:
step?.result?.status === 'skipped' with no defaulting. -/
def stepRawSkipped (s : Step) : Bool :=
  decide (s.result.bind StepResult.status = some "skipped")

/-- The before-hook block of parseResultFileForFeature (lines 396-413):
the first failing hook clears the passed flag and records the Before Hook
Failed descriptor. -/
def evalBefore (scLine : Option Nat) (before : Option (List Hook)) :
    Bool × Option FailedStepInfo :=
  match findFailingHook (before.getD []) with
  | some (h, r) =>
    (false, some (mkHookFailure "Before Hook Failed" h r (jsOrNat scLine 0)))
  | none => (true, none)

/-- The step block of parseResultFileForFeature (lines 415-469), entered
only when no failure is recorded yet: a non-empty step list is scanned
(with the all-skipped fallback when the scan recorded no failure), and a
missing or empty step list synthesizes the Empty Scenario failure. -/
def evalSteps (scLine : Option Nat) (steps : Option (List Step))
    (st : Bool × Option FailedStepInfo) : Bool × Option FailedStepInfo :=
  match st.2, steps with
  | none, some (s :: rest) =>
    match stepScan scLine (s :: rest) st.1 with
    | (p, some f) => (p, some f)
    | (p, none) =>
      if (s :: rest).all stepRawSkipped then
        (false, some { name := "Scenario Setup Error",
                       errorMessage := "All steps were skipped. Check for errors in @Before hooks or step definitions.",
                       line := jsOrNat scLine 0 })
      else (p, none)
  | none, _ =>
    (false, some { name := "Empty Scenario",
                   errorMessage := "Scenario has no steps",
                   line := jsOrNat scLine 0 })
  | some _, _ => st

/-- The after-hook block of parseResultFileForFeature (lines 471-490): a
failing after hook clears the passed flag and records the After Hook
Failed descriptor only when no failure is recorded yet. -/
def evalAfter (scLine : Option Nat) (after : Option (List Hook))
    (st : Bool × Option FailedStepInfo) : Bool × Option FailedStepInfo :=
  match findFailingHook (after.getD []) with
  | some (h, r) =>
    (false,
      match st.2 with
      | some f => some f
      | none => some (mkHookFailure "After Hook Failed" h r (jsOrNat scLine 0)))
  | none => st

/-- Per-element classification of parseResultFileForFeature (lines
388-499): before hooks first, then the step scan with its all-skipped and
empty-scenario fallbacks, then after hooks, then the pushed record. -/
def evalElement (sc : Element) : ScenarioResult :=
  let final := evalAfter sc.line sc.after
    (evalSteps sc.line sc.steps (evalBefore sc.line sc.before))
  { name := jsOrStr sc.name "Unnamed scenario",
    line := sc.line,
    passed := final.1,
    failedStep := final.2 }

/-- The feature loop shared by parseResultFileForFeature and
hasFeatureFailures: the first entry whose identity matches the target and
whose elements field is an array wins; entries that match without an
elements array are passed over. -/
def locateFileEntry : List ReportFeature → String → Option (List Element)
  | [], _ => none
  | f :: rest, target =>
    if isSameFeaturePath target (featurePathOf f) then
      match f.elements with
      | some es => some es
      | none => locateFileEntry rest target
    else locateFileEntry rest target

/-- All reconciled outcomes of one matched entry: every non-background
element, in order. -/
def evalElements (elems : List Element) : List ScenarioResult :=
  (elems.filter fun e => e.type ≠ some "background").map evalElement

/-! ### Report file polling (waitForValidJsonFile) and the whole-file
shortcut (hasFeatureFailures).  File I/O is modelled by the file's state as
seen by each read attempt. -/

/-- What one read of the result file can observe. -/
inductive FileState where
  | missing
  | emptyFile
  | whitespaceOnly
  | invalidJson
  | notArray
  | validArray (results : List ReportFeature)
deriving Repr, DecidableEq

/-- The success test of one polling attempt: the file parsed as a JSON
array. -/
def isValidArray : FileState → Bool
  | .validArray _ => true
  | _ => false

/-- The polling loop of waitForValidJsonFile: n attempts starting at the
given attempt number; every non-array observation sleeps and retries. -/
def waitLoop (states : Nat → FileState) : Nat → Nat → Bool
  | _, 0 => false
  | attempt, n + 1 =>
    if isValidArray (states attempt) then true
    else waitLoop states (attempt + 1) n

/-- Embedding of waitForValidJsonFile: true iff one of the maxAttempts
reads (attempt numbers 1..maxAttempts) observed a valid JSON array. -/
def waitForValidJsonFile (states : Nat → FileState) (maxAttempts : Nat) : Bool :=
  waitLoop states 1 maxAttempts

/-- Whether one scenario element fails under hasFeatureFailures, which
checks before hooks, then after hooks, then requires every step to carry a
passed result (here a skipped step also fails). -/
def elementFails (sc : Element) : Bool :=
  let p1 := !(findFailingHook (sc.before.getD [])).isSome
  let p2 := p1 && !(findFailingHook (sc.after.getD [])).isSome
  let p3 :=
    match sc.steps with
    | some (s :: rest) =>
      p2 && (s :: rest).all fun st =>
        match st.result with
        | some r => r.status == "passed"
        | none => false
    | _ => p2
  !p3

/-- The matched-entry scan of hasFeatureFailures: the first matching entry
with an elements array decides the answer (true at the first failing
non-background element, false when none fails); a report with no matching
entry yields false (assume passed). -/
def hasFeatureFailuresCore : List ReportFeature → String → Bool
  | [], _ => false
  | f :: rest, target =>
    if isSameFeaturePath target (featurePathOf f) then
      match f.elements with
      | some es => (es.filter fun e => e.type ≠ some "background").any elementFails
      | none => hasFeatureFailuresCore rest target
    else hasFeatureFailuresCore rest target

/-- Embedding of hasFeatureFailures: poll with 20 attempts (the defaults
maxAttempts = 20); on exhaustion return true (fail closed); otherwise
re-read the file (finalRead) and return true unless it is a JSON array,
in which case scan for the target feature. -/
def hasFeatureFailures (states : Nat → FileState) (finalRead : FileState)
    (featureFilePath : String) : Bool :=
  if waitForValidJsonFile states 20 = false then true
  else
    match finalRead with
    | .validArray results => hasFeatureFailuresCore results featureFilePath
    | _ => true

/-- Embedding of parseResultFileForFeature: empty result list when polling
fails or the re-read is not an array or no entry matches; otherwise the
reconciled outcomes of the matched entry. -/
def parseResultFileForFeature (states : Nat → FileState) (finalRead : FileState)
    (featureFilePath : String) : List ScenarioResult :=
  if waitForValidJsonFile states 20 = false then []
  else
    match finalRead with
    | .validArray results =>
      match locateFileEntry results featureFilePath with
      | some es => evalElements es
      | none => []
    | _ => []

/-! ### Specification-side statement of the row-classification algorithm -/

/-- The row-classification conditions as the specification words them:
scanning backward from the candidate finds a nearest Examples heading e;
the first table-row line h after that heading (the header row) exists; the
candidate's index is strictly greater than h; and scanning backward from
the Examples heading finds a nearest Scenario Outline line. -/
def rowClassificationSpec (lines : List String) (i : Nat) : Prop :=
  ∃ e, (e ≤ i ∧ isExamplesAt lines e = true ∧
        ∀ k, e < k → k ≤ i → isExamplesAt lines k = false) ∧
    ∃ h, (e + 1 ≤ h ∧ h < lines.length ∧ isTableAt lines h = true ∧
          ∀ k, e + 1 ≤ k → k < h → isTableAt lines k = false) ∧
      h < i ∧
      ∃ s, s ≤ e ∧ isOutlineAt lines s = true ∧
        ∀ k, s < k → k ≤ e → isOutlineAt lines k = false

/-! ### Concrete inputs used by counterexamples and witnesses -/

/-- A step whose result status is passed. -/
def stepPassedEx : Step := ⟨some "ok step", some "Given ", some 3, some ⟨some "passed", none⟩⟩

/-- A step whose result status is skipped. -/
def stepSkippedEx : Step := ⟨some "skip step", some "And ", some 4, some ⟨some "skipped", none⟩⟩

/-- A step whose result status is failed, with an error message. -/
def stepFailedEx : Step := ⟨some "w3", some "When ", some 7, some ⟨some "failed", some "boom"⟩⟩

/-- A hook whose result status is failed. -/
def hookFailedEx : Hook := ⟨some ⟨"failed", some "hookerr"⟩, some "Hooks.java:10"⟩

/-- Scenario element with steps [passed, skipped] and no hooks. -/
def c1MixElement : Element :=
  ⟨some "scenario", some "mix", some 2, none, none, some [stepPassedEx, stepSkippedEx]⟩

/-- Scenario element with one passed step and no hooks. -/
def c1PassElement : Element :=
  ⟨some "scenario", some "ok", some 2, none, none, some [stepPassedEx]⟩

/-- Scenario element with steps [passed, skipped, failed] and no hooks. -/
def c1RepElement : Element :=
  ⟨some "scenario", some "rep", some 2, none, none,
    some [stepPassedEx, stepSkippedEx, stepFailedEx]⟩

/-- Scenario element with one failing before hook and an all-passed step. -/
def c8Element : Element :=
  ⟨some "scenario", some "hooked", some 2, some [hookFailedEx], none, some [stepPassedEx]⟩

/-- Scenario element whose steps are all skipped. -/
def c9AllSkippedElement : Element :=
  ⟨some "scenario", some "allsk", some 2, none, none, some [stepSkippedEx, stepSkippedEx]⟩

/-- Scenario element with an empty step list. -/
def c9EmptyElement : Element :=
  ⟨some "scenario", some "empty", some 2, none, none, some []⟩

/-- A feature document with one outline whose Examples block has a header
row, a data row immediately after it, and a later data row separated by a
blank line and a non-table line. -/
def exDoc : String :=
  "Feature: f\nScenario Outline: s\nExamples:\n| a |\n| r1 |\n\nx\n| r2 |"

/-- A document with one Feature line and two scenario headings. -/
def c3Doc : String := "Feature: F\nScenario: a\nGiven x\nScenario Outline: b"

/-- A document with two Feature lines. -/
def twoFeatureDoc : String := "Feature: A\nFeature: B"

/-- A document whose only Feature line has an empty name. -/
def emptyNameDoc : String := "Feature:\nScenario: a"

/-- A report entry whose identity does not match the target used in the
C2 witness. -/
def c2NoMatchEntry : ReportFeature := ⟨some "other/bar.feature", none, some []⟩

/-! ## Theorems -/

/-- A boolean that is not true is false. -/
theorem bool_false {b : Bool} (h : ¬ b = true) : b = false := by
  cases b
  · rfl
  · exact absurd rfl h

/-- A JavaScript string default that produced a value other than the
default came from a present, non-empty value. -/
theorem jsOrStr_eq_some {o : Option String} {d x : String}
    (h : jsOrStr o d = x) (hx : x ≠ d) : o = some x := by
  cases o with
  | none =>
    simp only [jsOrStr] at h
    exact absurd h.symm hx
  | some s =>
    simp only [jsOrStr] at h
    split at h
    · exact absurd h.symm hx
    · rw [h]

/-- The first characters agree along lstartsWith. -/
theorem lstartsWith_head {a c : Char} {as cs : List Char}
    (h : lstartsWith (a :: as) (c :: cs) = true) : a = c := by
  simp only [lstartsWith, Bool.and_eq_true, beq_iff_eq] at h
  exact h.1

/-- A string starting with a non-empty pattern starts with the pattern's
first character. -/
theorem jsStartsWith_head {s p : String} {c : Char}
    (hc : p.data.head? = some c) (h : jsStartsWith s p = true) :
    s.data.head? = some c := by
  unfold jsStartsWith at h
  cases hp : p.data with
  | nil => rw [hp] at hc; exact Option.noConfusion hc
  | cons b bs =>
    rw [hp] at hc h
    simp only [List.head?_cons, Option.some.injEq] at hc
    cases hs : s.data with
    | nil => rw [hs] at h; simp [lstartsWith] at h
    | cons a as =>
      rw [hs] at h
      simp only [List.head?_cons, Option.some.injEq]
      rw [← hc]
      exact lstartsWith_head h

/-- Two patterns with distinct first characters cannot both be leading
segments of the same string. -/
theorem not_jsStartsWith_of_head_ne {s p q : String} {c d : Char}
    (hc : p.data.head? = some c) (hd : q.data.head? = some d) (hne : c ≠ d)
    (h : jsStartsWith s p = true) : jsStartsWith s q = false := by
  by_contra hq
  rw [Bool.not_eq_false] at hq
  have h1 := jsStartsWith_head hc h
  have h2 := jsStartsWith_head hd hq
  rw [h1] at h2
  exact hne (Option.some.inj h2)

/-- The backward scan returns exactly the greatest index at or below the
start that satisfies the predicate. -/
theorem scanBack_eq_some {p : Nat → Bool} :
    ∀ {i j : Nat}, scanBack p i = some j ↔
      j ≤ i ∧ p j = true ∧ ∀ k, j < k → k ≤ i → p k = false := by
  intro i
  induction i with
  | zero =>
    intro j
    by_cases h0 : p 0 = true
    · simp only [scanBack, h0, if_true, Option.some.injEq]
      constructor
      · rintro rfl
        exact ⟨Nat.le_refl 0, h0, fun k hk1 hk2 => by omega⟩
      · rintro ⟨hj, _, _⟩
        omega
    · simp only [scanBack, h0, if_false]
      constructor
      · intro h
        exact Option.noConfusion h
      · rintro ⟨hj, hpj, _⟩
        have hj0 : j = 0 := by omega
        rw [hj0] at hpj
        exact absurd hpj h0
  | succ n ih =>
    intro j
    by_cases hs : p (n + 1) = true
    · simp only [scanBack, hs, if_true, Option.some.injEq]
      constructor
      · rintro rfl
        exact ⟨Nat.le_refl _, hs, fun k hk1 hk2 => by omega⟩
      · rintro ⟨hj, hpj, hmax⟩
        by_cases hj2 : j = n + 1
        · rw [hj2]
        · have h1 := hmax (n + 1) (by omega) (Nat.le_refl _)
          rw [h1] at hs
          exact Bool.noConfusion hs
    · simp only [scanBack, hs, Bool.false_eq_true, if_false]
      rw [ih]
      constructor
      · rintro ⟨hj, hpj, hmax⟩
        refine ⟨by omega, hpj, fun k hk1 hk2 => ?_⟩
        rcases Nat.lt_or_ge k (n + 1) with hk | hk
        · exact hmax k hk1 (by omega)
        · have hk3 : k = n + 1 := by omega
          rw [hk3]
          exact bool_false hs
      · rintro ⟨hj, hpj, hmax⟩
        have hjn : j ≤ n := by
          rcases Nat.lt_or_ge j (n + 1) with h | h
          · omega
          · have hj3 : j = n + 1 := by omega
            rw [hj3] at hpj
            exact absurd hpj hs
        exact ⟨hjn, hpj, fun k hk1 hk2 => hmax k hk1 (by omega)⟩

/-- The bounded forward scan returns exactly the least index in its window
that satisfies the predicate. -/
theorem scanFwdGo_eq_some {p : Nat → Bool} :
    ∀ {n i j : Nat}, scanFwdGo p n i = some j ↔
      i ≤ j ∧ j < i + n ∧ p j = true ∧ ∀ k, i ≤ k → k < j → p k = false := by
  intro n
  induction n with
  | zero =>
    intro i j
    constructor
    · intro h
      exact Option.noConfusion h
    · rintro ⟨h1, h2, _, _⟩
      omega
  | succ m ih =>
    intro i j
    by_cases hp : p i = true
    · simp only [scanFwdGo, hp, if_true, Option.some.injEq]
      constructor
      · rintro rfl
        exact ⟨Nat.le_refl _, by omega, hp, fun k hk1 hk2 => by omega⟩
      · rintro ⟨h1, h2, hpj, hmin⟩
        by_cases hij : j = i
        · rw [hij]
        · have h3 := hmin i (Nat.le_refl _) (by omega)
          rw [h3] at hp
          exact Bool.noConfusion hp
    · simp only [scanFwdGo, hp, Bool.false_eq_true, if_false]
      rw [ih]
      constructor
      · rintro ⟨h1, h2, hpj, hmin⟩
        refine ⟨by omega, by omega, hpj, fun k hk1 hk2 => ?_⟩
        rcases Nat.eq_or_lt_of_le hk1 with hk | hk
        · rw [← hk]
          exact bool_false hp
        · exact hmin k (by omega) hk2
      · rintro ⟨h1, h2, hpj, hmin⟩
        have hij : i < j := by
          rcases Nat.eq_or_lt_of_le h1 with h | h
          · rw [← h] at hpj
            exact absurd hpj hp
          · exact h
        exact ⟨by omega, by omega, hpj, fun k hk1 hk2 => hmin k (by omega) hk2⟩

/-- The source's forward loop from i up to len finds exactly the least
index in [i, len) satisfying the predicate. -/
theorem scanFwd_eq_some {p : Nat → Bool} {len i j : Nat} :
    scanFwd p len i = some j ↔
      i ≤ j ∧ j < len ∧ p j = true ∧ ∀ k, i ≤ k → k < j → p k = false := by
  unfold scanFwd
  rw [scanFwdGo_eq_some]
  constructor
  · rintro ⟨h1, h2, h3, h4⟩
    exact ⟨h1, by omega, h3, h4⟩
  · rintro ⟨h1, h2, h3, h4⟩
    exact ⟨h1, by omega, h3, h4⟩

/-- C4: row classification accepts a candidate table-row line exactly when
a backward scan finds a nearest Examples heading, the first table-row line
after that heading (the header row) exists, the candidate's index is
strictly greater than the header's, and a backward scan from the Examples
heading finds a Scenario Outline line; if any of these fails the candidate
is rejected. -/
theorem c4_row_classification (lines : List String) (i : Nat)
    (_hrow : isTableAt lines i = true) :
    (∃ v, findExampleRowInfo lines i = some v) ↔ rowClassificationSpec lines i := by
  constructor
  · rintro ⟨v, hv⟩
    unfold findExampleRowInfo at hv
    cases he : scanBack (fun k => isExamplesAt lines k) i with
    | none => rw [he] at hv; exact Option.noConfusion hv
    | some e =>
      rw [he] at hv
      simp only at hv
      cases hh : scanFwd (fun k => isTableAt lines k) lines.length (e + 1) with
      | none => rw [hh] at hv; exact Option.noConfusion hv
      | some h =>
        rw [hh] at hv
        simp only at hv
        by_cases hle : i ≤ h
        · rw [if_pos hle] at hv; exact Option.noConfusion hv
        · rw [if_neg hle] at hv
          cases hs : scanBack (fun k => isOutlineAt lines k) e with
          | none => rw [hs] at hv; exact Option.noConfusion hv
          | some s =>
            obtain ⟨he1, he2, he3⟩ := scanBack_eq_some.mp he
            obtain ⟨hh1, hh2, hh3, hh4⟩ := scanFwd_eq_some.mp hh
            obtain ⟨hs1, hs2, hs3⟩ := scanBack_eq_some.mp hs
            exact ⟨e, ⟨he1, he2, he3⟩, h, ⟨hh1, hh2, hh3, hh4⟩, by omega,
              s, hs1, hs2, hs3⟩
  · rintro ⟨e, ⟨he1, he2, he3⟩, h, ⟨hh1, hh2, hh3, hh4⟩, hlt, s, hs1, hs2, hs3⟩
    refine ⟨s + 1, ?_⟩
    unfold findExampleRowInfo
    rw [scanBack_eq_some.mpr ⟨he1, he2, he3⟩]
    simp only
    rw [scanFwd_eq_some.mpr ⟨hh1, hh2, hh3, hh4⟩]
    simp only
    rw [if_neg (by omega)]
    rw [scanBack_eq_some.mpr ⟨hs1, hs2, hs3⟩]

/-- C4 witness: the classification theorem applied to the concrete data
row at index 4 of exDoc. -/
theorem c4_witness :
    (∃ v, findExampleRowInfo (jsSplitLines exDoc) 4 = some v) ↔
      rowClassificationSpec (jsSplitLines exDoc) 4 :=
  c4_row_classification (jsSplitLines exDoc) 4 (by decide)

/-- C5 (amended): any candidate whose backward scan reaches an Examples
heading with header row h and an owning outline is accepted exactly when
its index exceeds h (so the header row itself is always rejected and the
row immediately after it accepted); concretely, in exDoc the header row
is excluded while the row immediately after it and a later row separated
by a blank line and a non-table line are both accepted, in document
order. -/
theorem c5_header_row_semantics :
    (∀ (lines : List String) (i e h s : Nat),
        scanBack (fun k => isExamplesAt lines k) i = some e →
        scanFwd (fun k => isTableAt lines k) lines.length (e + 1) = some h →
        scanBack (fun k => isOutlineAt lines k) e = some s →
        (h < i → findExampleRowInfo lines i = some (s + 1)) ∧
        (i ≤ h → findExampleRowInfo lines i = none)) ∧
    parseFeatureFile exDoc =
      some ⟨"f", [⟨"s (Outline)", 2, [⟨5, "| r1 |"⟩, ⟨8, "| r2 |"⟩]⟩], 1⟩ := by
  constructor
  · intro lines i e h s he hh hs
    constructor
    · intro hlt
      unfold findExampleRowInfo
      rw [he]
      simp only
      rw [hh]
      simp only
      rw [if_neg (by omega)]
      rw [hs]
    · intro hle
      unfold findExampleRowInfo
      rw [he]
      simp only
      rw [hh]
      simp only
      rw [if_pos hle]
  · decide

/-- C5 counterexample: in exDoc the Examples heading is at index 2 and the
header row at index 3; the table row at index 4, immediately after the
header row, is accepted (the claim would exclude it), and the parsed
example rows are source lines 5 and 8. -/
theorem c5_counterexample :
    isExamplesAt (jsSplitLines exDoc) 2 = true ∧
    scanFwd (fun k => isTableAt (jsSplitLines exDoc) k)
        (jsSplitLines exDoc).length 3 = some 3 ∧
    findExampleRowInfo (jsSplitLines exDoc) 4 = some 2 ∧
    ((parseFeatureFile exDoc).map fun fi =>
        fi.scenarios.map fun sc => sc.examples.map ExampleInfo.lineNumber) =
      some [[5, 8]] := by
  decide

/-- C5 witness: the general clauses of the amended theorem applied to the
later data row (index 7) and to the header row (index 3) of exDoc. -/
theorem c5_witness :
    findExampleRowInfo (jsSplitLines exDoc) 7 = some 2 ∧
    findExampleRowInfo (jsSplitLines exDoc) 3 = none :=
  ⟨(c5_header_row_semantics.1 (jsSplitLines exDoc) 7 2 3 1 (by decide) (by decide)
      (by decide)).1 (by decide),
   (c5_header_row_semantics.1 (jsSplitLines exDoc) 3 2 3 1 (by decide) (by decide)
      (by decide)).2 (by decide)⟩

/-- Pushing an example row changes no scenario line number. -/
theorem pushExample_map (ss : List ScenarioInfo) (ex : ExampleInfo) :
    (pushExample ss ex).map ScenarioInfo.lineNumber = ss.map ScenarioInfo.lineNumber := by
  cases ss <;> rfl

/-- One loop iteration updates the feature name and line exactly on a
Feature line, overwriting whatever was recorded before. -/
theorem parseStep_featureFields (lines : List String) (i : Nat) (st : ParseState) :
    (parseStep lines i st).featureName =
        (if isFeatureAt lines i then featureNameAt lines i else st.featureName) ∧
    (parseStep lines i st).featureLineNumber =
        (if isFeatureAt lines i then i + 1 else st.featureLineNumber) := by
  by_cases hF : jsStartsWith (lineAt lines i) "Feature:" = true
  · have hFa : isFeatureAt lines i = true := hF
    simp [parseStep, hF, hFa, featureNameAt]
  · have hFa : isFeatureAt lines i = false := bool_false hF
    simp only [parseStep, bool_false hF, Bool.false_eq_true, if_false, hFa]
    constructor
    · split
      · rfl
      · split
        · rfl
        · split
          · split <;> rfl
          · rfl
    · split
      · rfl
      · split
        · rfl
        · split
          · split <;> rfl
          · rfl

/-- One loop iteration prepends a new scenario carrying line i + 1 exactly
on a scenario heading line and otherwise keeps all scenario line numbers. -/
theorem parseStep_revLines (lines : List String) (i : Nat) (st : ParseState) :
    (parseStep lines i st).revScenarios.map ScenarioInfo.lineNumber =
      (if isScenHeadAt lines i
       then (i + 1) :: st.revScenarios.map ScenarioInfo.lineNumber
       else st.revScenarios.map ScenarioInfo.lineNumber) := by
  by_cases h1 : jsStartsWith (lineAt lines i) "Feature:" = true
  · have hsc : jsStartsWith (lineAt lines i) "Scenario:" = false :=
      @not_jsStartsWith_of_head_ne (lineAt lines i) "Feature:" "Scenario:" 'F' 'S'
        (by decide) (by decide) (by decide) h1
    have hso : jsStartsWith (lineAt lines i) "Scenario Outline:" = false :=
      @not_jsStartsWith_of_head_ne (lineAt lines i) "Feature:" "Scenario Outline:"
        'F' 'S' (by decide) (by decide) (by decide) h1
    have hhead : isScenHeadAt lines i = false := by
      unfold isScenHeadAt
      rw [hsc, hso]
      rfl
    simp only [parseStep, h1, if_true, hhead, Bool.false_eq_true, if_false]
  · by_cases h2 : jsStartsWith (lineAt lines i) "Scenario:" = true
    · have hhead : isScenHeadAt lines i = true := by
        unfold isScenHeadAt
        rw [h2]
        rfl
      simp only [parseStep, bool_false h1, Bool.false_eq_true, if_false, h2, if_true,
        hhead, List.map_cons]
    · by_cases h3 : jsStartsWith (lineAt lines i) "Scenario Outline:" = true
      · have hhead : isScenHeadAt lines i = true := by
          unfold isScenHeadAt
          rw [h3, Bool.or_true]
        simp only [parseStep, bool_false h1, bool_false h2, Bool.false_eq_true,
          if_false, h3, if_true, hhead, List.map_cons]
      · have hhead : isScenHeadAt lines i = false := by
          unfold isScenHeadAt
          rw [bool_false h2, bool_false h3]
          rfl
        simp only [parseStep, bool_false h1, bool_false h2, bool_false h3,
          Bool.false_eq_true, if_false, hhead]
        split
        · split
          · rw [pushExample_map]
          · rfl
        · rfl

/-- parseFeatureFile's loop records, in reverse, the 1-indexed line of
every scenario heading in the scanned window. -/
theorem parseLines_revLines (lines : List String) :
    ∀ (n i : Nat) (st : ParseState),
      (parseLines lines n i st).revScenarios.map ScenarioInfo.lineNumber =
        (((idxFrom i n).filter fun k => isScenHeadAt lines k).map fun k => k + 1).reverse
          ++ st.revScenarios.map ScenarioInfo.lineNumber := by
  intro n
  induction n with
  | zero =>
    intro i st
    simp [parseLines, idxFrom]
  | succ m ih =>
    intro i st
    have hstep := parseStep_revLines lines i st
    show (parseLines lines m (i + 1) (parseStep lines i st)).revScenarios.map
        ScenarioInfo.lineNumber = _
    rw [ih]
    by_cases h : isScenHeadAt lines i = true
    · rw [if_pos h] at hstep
      rw [hstep]
      simp only [idxFrom, List.filter_cons, h, if_true, List.map_cons,
        List.reverse_cons, List.append_assoc, List.singleton_append]
    · rw [if_neg (by rw [bool_false h]; exact Bool.false_ne_true)] at hstep
      rw [hstep]
      simp only [idxFrom, List.filter_cons, bool_false h, Bool.false_eq_true,
        if_false]

/-- parseFeatureFile's loop leaves, in the feature name and line fields,
the value written by the last Feature line of the scanned window. -/
theorem parseLines_featureFields (lines : List String) :
    ∀ (n i : Nat) (st : ParseState),
      (parseLines lines n i st).featureName =
        lastWrite st.featureName (featureNameAt lines)
          ((idxFrom i n).filter fun k => isFeatureAt lines k) ∧
      (parseLines lines n i st).featureLineNumber =
        lastWrite st.featureLineNumber (fun k => k + 1)
          ((idxFrom i n).filter fun k => isFeatureAt lines k) := by
  intro n
  induction n with
  | zero =>
    intro i st
    exact ⟨rfl, rfl⟩
  | succ m ih =>
    intro i st
    have hstep := parseStep_featureFields lines i st
    obtain ⟨ihn, ihl⟩ := ih (i + 1) (parseStep lines i st)
    have hshow : parseLines lines (m + 1) i st
        = parseLines lines m (i + 1) (parseStep lines i st) := rfl
    rw [hshow]
    by_cases h : isFeatureAt lines i = true
    · rw [if_pos h] at hstep
      constructor
      · rw [ihn, hstep.1]
        simp only [idxFrom, List.filter_cons, h, if_true, lastWrite]
      · rw [ihl, hstep.2]
        simp only [idxFrom, List.filter_cons, h, if_true, lastWrite]
    · rw [if_neg (by rw [bool_false h]; exact Bool.false_ne_true)] at hstep
      constructor
      · rw [ihn, hstep.1]
        simp only [idxFrom, List.filter_cons, bool_false h, Bool.false_eq_true,
          if_false]
      · rw [ihl, hstep.2]
        simp only [idxFrom, List.filter_cons, bool_false h, Bool.false_eq_true,
          if_false]

/-- Repeated overwrites all writing the same value leave that value. -/
theorem lastWrite_all_eq {α : Type} {f : Nat → α} {d : α} :
    ∀ {l : List Nat}, (∀ j ∈ l, f j = d) → lastWrite d f l = d := by
  intro l
  induction l with
  | nil => intro _; rfl
  | cons a rest ih =>
    intro h
    show lastWrite (f a) f rest = d
    rw [h a (List.mem_cons_self a rest)]
    exact ih fun j hj => h j (List.mem_cons_of_mem a hj)

/-- Repeated overwrites leave the value written by the last index. -/
theorem lastWrite_lastElem {α : Type} {f : Nat → α} :
    ∀ (l : List Nat) (d : α) (j : Nat), lastElem l = some j → lastWrite d f l = f j := by
  intro l
  induction l with
  | nil =>
    intro d j h
    exact Option.noConfusion h
  | cons a rest ih =>
    intro d j h
    cases rest with
    | nil =>
      have ha : a = j := by
        simpa [lastElem] using h
      rw [← ha]
      rfl
    | cons b rest2 =>
      show lastWrite (f a) f (b :: rest2) = f j
      exact ih (f a) j (by simpa [lastElem] using h)

/-- C3 (amended): for every document text with exactly one Feature line,
whose name after the keyword is non-empty, and N scenario heading lines,
the parser returns a feature with exactly N scenarios, in document order,
each carrying the 1-indexed line number of its heading line. -/
theorem c3_scenario_enumeration (text : String) (j N : Nat)
    (hfeat : featureIdxs (jsSplitLines text) = [j])
    (hname : featureNameAt (jsSplitLines text) j ≠ "")
    (hcount : (scenarioHeadingIdxs (jsSplitLines text)).length = N) :
    ∃ fi, parseFeatureFile text = some fi ∧
      fi.scenarios.length = N ∧
      fi.scenarios.map ScenarioInfo.lineNumber =
        (scenarioHeadingIdxs (jsSplitLines text)).map fun k => k + 1 := by
  have hff := (parseLines_featureFields (jsSplitLines text)
    (jsSplitLines text).length 0 ⟨"", 0, []⟩).1
  have hrev := parseLines_revLines (jsSplitLines text)
    (jsSplitLines text).length 0 ⟨"", 0, []⟩
  have hfeq : ((idxFrom 0 (jsSplitLines text).length).filter
      fun k => isFeatureAt (jsSplitLines text) k) = featureIdxs (jsSplitLines text) := rfl
  have hseq : ((idxFrom 0 (jsSplitLines text).length).filter
      fun k => isScenHeadAt (jsSplitLines text) k)
      = scenarioHeadingIdxs (jsSplitLines text) := rfl
  rw [hfeq, hfeat] at hff
  rw [hseq] at hrev
  have hnm : (parseLines (jsSplitLines text) (jsSplitLines text).length 0
      ⟨"", 0, []⟩).featureName = featureNameAt (jsSplitLines text) j := hff
  have hmap : (parseLines (jsSplitLines text) (jsSplitLines text).length 0
        ⟨"", 0, []⟩).revScenarios.map ScenarioInfo.lineNumber
      = ((scenarioHeadingIdxs (jsSplitLines text)).map fun k => k + 1).reverse := by
    rw [hrev]
    simp
  show ∃ fi, parseFeatureLines (jsSplitLines text) = some fi ∧ _
  unfold parseFeatureLines
  rw [if_neg (by rw [hnm]; exact hname)]
  refine ⟨_, rfl, ?_, ?_⟩
  · show (parseLines (jsSplitLines text) (jsSplitLines text).length 0
        ⟨"", 0, []⟩).revScenarios.reverse.length = N
    have := congrArg List.length hmap
    simp only [List.length_map, List.length_reverse] at this
    rw [List.length_reverse, this, ← hcount]
  · show (parseLines (jsSplitLines text) (jsSplitLines text).length 0
        ⟨"", 0, []⟩).revScenarios.reverse.map ScenarioInfo.lineNumber = _
    rw [List.map_reverse, hmap, List.reverse_reverse]

/-- C3 witness: the enumeration theorem applied to c3Doc, which has one
Feature line at index 0 and scenario headings at indices 1 and 3. -/
theorem c3_witness :
    ∃ fi, parseFeatureFile c3Doc = some fi ∧
      fi.scenarios.length = 2 ∧
      fi.scenarios.map ScenarioInfo.lineNumber =
        (scenarioHeadingIdxs (jsSplitLines c3Doc)).map fun k => k + 1 :=
  c3_scenario_enumeration c3Doc 0 2 (by decide) (by decide) (by decide)

/-- C3 counterexample: emptyNameDoc has exactly one Feature line (index 0)
and one scenario heading, yet the parser returns none because the feature
name is empty, so the claim's unconditional conclusion fails. -/
theorem c3_counterexample :
    featureIdxs (jsSplitLines emptyNameDoc) = [0] ∧
    (scenarioHeadingIdxs (jsSplitLines emptyNameDoc)).length = 1 ∧
    parseFeatureFile emptyNameDoc = none := by
  decide

/-- C6 (amended): every Feature line overwrites the recorded feature name
and line, so the last Feature line of the document is honored; when its
name is non-empty the parser returns that name and 1-indexed line. -/
theorem c6_last_feature_wins (text : String) (j : Nat)
    (hlast : lastElem (featureIdxs (jsSplitLines text)) = some j)
    (hname : featureNameAt (jsSplitLines text) j ≠ "") :
    ∃ fi, parseFeatureFile text = some fi ∧
      fi.name = featureNameAt (jsSplitLines text) j ∧
      fi.lineNumber = j + 1 := by
  have hff := parseLines_featureFields (jsSplitLines text)
    (jsSplitLines text).length 0 ⟨"", 0, []⟩
  have hfeq : ((idxFrom 0 (jsSplitLines text).length).filter
      fun k => isFeatureAt (jsSplitLines text) k) = featureIdxs (jsSplitLines text) := rfl
  rw [hfeq] at hff
  have hnm : (parseLines (jsSplitLines text) (jsSplitLines text).length 0
      ⟨"", 0, []⟩).featureName = featureNameAt (jsSplitLines text) j := by
    rw [hff.1]
    exact lastWrite_lastElem _ _ j hlast
  have hln : (parseLines (jsSplitLines text) (jsSplitLines text).length 0
      ⟨"", 0, []⟩).featureLineNumber = j + 1 := by
    rw [hff.2]
    exact lastWrite_lastElem _ _ j hlast
  show ∃ fi, parseFeatureLines (jsSplitLines text) = some fi ∧ _
  unfold parseFeatureLines
  rw [if_neg (by rw [hnm]; exact hname)]
  exact ⟨_, rfl, hnm, hln⟩

/-- C6 witness: the last-feature theorem applied to twoFeatureDoc, whose
last Feature line is index 1 with name B. -/
theorem c6_witness :
    ∃ fi, parseFeatureFile twoFeatureDoc = some fi ∧
      fi.name = featureNameAt (jsSplitLines twoFeatureDoc) 1 ∧
      fi.lineNumber = 2 :=
  c6_last_feature_wins twoFeatureDoc 1 (by decide) (by decide)

/-- C6 counterexample: on a document with two Feature lines the parser
reports the second line's name B and line 2, not the first line's name A
and line 1 as the claim states. -/
theorem c6_counterexample :
    parseFeatureFile twoFeatureDoc = some ⟨"B", [], 2⟩ := by
  decide

/-- C10: when every Feature line of the document has an empty name after
stripping the keyword and trimming, the parser returns none even though a
Feature line is present. -/
theorem c10_empty_feature_name (text : String)
    (_hpresent : featureIdxs (jsSplitLines text) ≠ [])
    (hempty : ∀ k ∈ featureIdxs (jsSplitLines text),
        featureNameAt (jsSplitLines text) k = "") :
    parseFeatureFile text = none := by
  have hff := (parseLines_featureFields (jsSplitLines text)
    (jsSplitLines text).length 0 ⟨"", 0, []⟩).1
  have hfeq : ((idxFrom 0 (jsSplitLines text).length).filter
      fun k => isFeatureAt (jsSplitLines text) k) = featureIdxs (jsSplitLines text) := rfl
  rw [hfeq] at hff
  have hnm : (parseLines (jsSplitLines text) (jsSplitLines text).length 0
      ⟨"", 0, []⟩).featureName = "" := by
    rw [hff]
    exact lastWrite_all_eq hempty
  show parseFeatureLines (jsSplitLines text) = none
  unfold parseFeatureLines
  rw [if_pos hnm]

/-- C10 witness: the empty-name theorem applied to emptyNameDoc. -/
theorem c10_witness : parseFeatureFile emptyNameDoc = none :=
  c10_empty_feature_name emptyNameDoc (by decide) (by decide)

/-- A before/after hook list containing a failing hook makes the hook scan
return a first failing hook. -/
theorem findFailingHook_of_exists :
    ∀ {hooks : List Hook}, (∃ hk ∈ hooks, hookFails hk = true) →
      ∃ hk r, findFailingHook hooks = some (hk, r) := by
  intro hooks
  induction hooks with
  | nil =>
    rintro ⟨hk, hmem, _⟩
    exact absurd hmem (List.not_mem_nil hk)
  | cons a rest ih =>
    rintro ⟨hk, hmem, hfa⟩
    cases ha : a.result with
    | none =>
      have hrest : ∃ hk ∈ rest, hookFails hk = true := by
        rcases List.mem_cons.mp hmem with rfl | hmem2
        · unfold hookFails at hfa
          rw [ha] at hfa
          exact Bool.noConfusion hfa
        · exact ⟨hk, hmem2, hfa⟩
      obtain ⟨hk2, r2, hfind⟩ := ih hrest
      exact ⟨hk2, r2, by simp only [findFailingHook, ha]; exact hfind⟩
    | some r =>
      by_cases hst : r.status = "passed"
      · have hrest : ∃ hk ∈ rest, hookFails hk = true := by
          rcases List.mem_cons.mp hmem with rfl | hmem2
          · unfold hookFails at hfa
            rw [ha] at hfa
            simp [hst] at hfa
          · exact ⟨hk, hmem2, hfa⟩
        obtain ⟨hk2, r2, hfind⟩ := ih hrest
        refine ⟨hk2, r2, ?_⟩
        simp only [findFailingHook, ha]
        rw [if_pos hst]
        exact hfind
      · refine ⟨a, r, ?_⟩
        simp only [findFailingHook, ha]
        rw [if_neg hst]

/-- The step scan over steps that are all passed or skipped records no
failure descriptor and clears the passed flag exactly when a skipped step
occurs. -/
theorem stepScan_passed_skipped {scLine : Option Nat} :
    ∀ {l : List Step} {b : Bool},
      (∀ s ∈ l, stepStatusOf s = "passed" ∨ stepStatusOf s = "skipped") →
      stepScan scLine l b =
        ((if l.any (fun s => stepStatusOf s == "skipped") then false else b), none) := by
  intro l
  induction l with
  | nil =>
    intro b _
    simp [stepScan]
  | cons s rest ih =>
    intro b h
    have hrest := fun t ht => h t (List.mem_cons_of_mem s ht)
    have hcons : stepScan scLine (s :: rest) b
        = if stepStatusOf s = "passed" then stepScan scLine rest b
          else if stepStatusOf s = "skipped" then stepScan scLine rest false
          else (false, some (mkStepFailure scLine s (stepStatusOf s))) := rfl
    rcases h s (List.mem_cons_self s rest) with hp | hk
    · have h1 : (stepStatusOf s == "skipped") = false := by
        rw [hp]
        decide
      rw [hcons, if_pos hp, ih hrest]
      simp [List.any_cons, h1]
    · have h1 : (stepStatusOf s == "skipped") = true := by
        rw [hk]
        decide
      rw [hcons, if_neg (by rw [hk]; decide), if_pos hk, ih hrest]
      simp [List.any_cons, h1]

/-- A step whose defaulted status reads passed carries a passed result
status. -/
theorem stepRaw_of_passed {s : Step} (h : stepStatusOf s = "passed") :
    s.result.bind StepResult.status = some "passed" :=
  jsOrStr_eq_some h (by decide)

/-- The before stage on a hook list with no failing hook. -/
theorem evalBefore_none {scLine : Option Nat} {before : Option (List Hook)}
    (h : findFailingHook (before.getD []) = none) :
    evalBefore scLine before = (true, none) := by
  unfold evalBefore
  rw [h]

/-- The before stage on a hook list whose scan finds a failing hook. -/
theorem evalBefore_some {scLine : Option Nat} {before : Option (List Hook)}
    {hk : Hook} {r : HookResult}
    (h : findFailingHook (before.getD []) = some (hk, r)) :
    evalBefore scLine before =
      (false, some (mkHookFailure "Before Hook Failed" hk r (jsOrNat scLine 0))) := by
  unfold evalBefore
  rw [h]

/-- The step stage never runs once a failure descriptor is recorded. -/
theorem evalSteps_recorded {scLine : Option Nat} {steps : Option (List Step)}
    {b : Bool} {f : FailedStepInfo} :
    evalSteps scLine steps (b, some f) = (b, some f) := by
  unfold evalSteps
  cases steps with
  | none => rfl
  | some l => cases l <;> rfl

/-- The step stage on a non-empty step list whose scan records no failure
descriptor and is not all raw-skipped returns the scan outcome. -/
theorem evalSteps_scan_clean {scLine : Option Nat} {s : Step} {rest : List Step}
    {b p : Bool}
    (hscan : stepScan scLine (s :: rest) b = (p, none))
    (hraw : (s :: rest).all stepRawSkipped = false) :
    evalSteps scLine (some (s :: rest)) (b, none) = (p, none) := by
  unfold evalSteps
  simp only
  rw [hscan]
  simp only
  rw [if_neg (by rw [hraw]; exact Bool.false_ne_true)]

/-- The step stage on a non-empty all-raw-skipped step list whose scan
records no failure descriptor synthesizes the Scenario Setup Error. -/
theorem evalSteps_all_skipped {scLine : Option Nat} {s : Step} {rest : List Step}
    {b p : Bool}
    (hscan : stepScan scLine (s :: rest) b = (p, none))
    (hraw : (s :: rest).all stepRawSkipped = true) :
    evalSteps scLine (some (s :: rest)) (b, none) =
      (false, some { name := "Scenario Setup Error",
                     errorMessage := "All steps were skipped. Check for errors in @Before hooks or step definitions.",
                     line := jsOrNat scLine 0 }) := by
  unfold evalSteps
  simp only
  rw [hscan]
  simp only
  rw [if_pos hraw]

/-- The step stage on a missing or empty step list synthesizes the Empty
Scenario failure. -/
theorem evalSteps_empty {scLine : Option Nat} {steps : Option (List Step)} {b : Bool}
    (h : steps = none ∨ steps = some []) :
    evalSteps scLine steps (b, none) =
      (false, some { name := "Empty Scenario",
                     errorMessage := "Scenario has no steps",
                     line := jsOrNat scLine 0 }) := by
  rcases h with h | h <;> rw [h] <;> rfl

/-- The after stage on a hook list with no failing hook. -/
theorem evalAfter_none {scLine : Option Nat} {after : Option (List Hook)}
    {st : Bool × Option FailedStepInfo}
    (h : findFailingHook (after.getD []) = none) :
    evalAfter scLine after st = st := by
  unfold evalAfter
  rw [h]

/-- The after stage never replaces a recorded failure descriptor and only
clears the passed flag. -/
theorem evalAfter_recorded {scLine : Option Nat} {after : Option (List Hook)}
    {b : Bool} {f : FailedStepInfo} :
    evalAfter scLine after (b, some f) =
      ((if (findFailingHook (after.getD [])).isSome then false else b), some f) := by
  unfold evalAfter
  cases h : findFailingHook (after.getD []) with
  | none => simp [h]
  | some pr => cases pr with | mk hk r => simp [h]

/-- C1 (amended): a skipped step never becomes the representative failure
descriptor but does clear the passed flag: with no hook failures, an
all-passed step list reconciles to passed with no descriptor, a mix of
passed and skipped steps reconciles to failed with no descriptor, and for
the concrete steps [passed, skipped, failed] the descriptor is the failed
step, not the skipped one. -/
theorem c1_skipped_step_reconciliation :
    (∀ (e : Element) (l : List Step),
        findFailingHook (e.before.getD []) = none →
        findFailingHook (e.after.getD []) = none →
        e.steps = some l → l ≠ [] →
        (∀ s ∈ l, stepStatusOf s = "passed") →
        (evalElement e).passed = true ∧ (evalElement e).failedStep = none) ∧
    (∀ (e : Element) (l : List Step),
        findFailingHook (e.before.getD []) = none →
        findFailingHook (e.after.getD []) = none →
        e.steps = some l →
        (∀ s ∈ l, stepStatusOf s = "passed" ∨ stepStatusOf s = "skipped") →
        (∃ s ∈ l, stepStatusOf s = "passed") →
        (∃ s ∈ l, stepStatusOf s = "skipped") →
        (evalElement e).passed = false ∧ (evalElement e).failedStep = none) ∧
    ((evalElement c1RepElement).passed = false ∧
      (evalElement c1RepElement).failedStep = some ⟨"When w3", "boom", 7⟩) := by
  refine ⟨?_, ?_, by decide⟩
  · intro e l hb ha hst hne hall
    obtain ⟨s, rest, rfl⟩ : ∃ s rest, l = s :: rest := by
      cases l with
      | nil => exact absurd rfl hne
      | cons a as => exact ⟨a, as, rfl⟩
    have hany : (s :: rest).any (fun t => stepStatusOf t == "skipped") = false := by
      apply bool_false
      intro habs
      rw [List.any_eq_true] at habs
      obtain ⟨t, ht, hts⟩ := habs
      rw [hall t ht] at hts
      exact absurd hts (by decide)
    have hscan := @stepScan_passed_skipped e.line (s :: rest) true
      (fun t ht => Or.inl (hall t ht))
    rw [hany] at hscan
    simp only [Bool.false_eq_true, if_false] at hscan
    have hraw : (s :: rest).all stepRawSkipped = false := by
      apply bool_false
      intro habs
      rw [List.all_eq_true] at habs
      have h1 := habs s (List.mem_cons_self s rest)
      unfold stepRawSkipped at h1
      rw [stepRaw_of_passed (hall s (List.mem_cons_self s rest))] at h1
      exact absurd h1 (by decide)
    have he : evalElement e =
        { name := jsOrStr e.name "Unnamed scenario", line := e.line,
          passed := true, failedStep := none } := by
      unfold evalElement
      rw [evalBefore_none hb, hst, evalSteps_scan_clean hscan hraw,
        evalAfter_none ha]
    exact ⟨by rw [he], by rw [he]⟩
  · intro e l hb ha hst hall hpass hskip
    obtain ⟨s, rest, rfl⟩ : ∃ s rest, l = s :: rest := by
      cases l with
      | nil =>
        obtain ⟨t, ht, _⟩ := hpass
        exact absurd ht (List.not_mem_nil t)
      | cons a as => exact ⟨a, as, rfl⟩
    have hany : (s :: rest).any (fun t => stepStatusOf t == "skipped") = true := by
      obtain ⟨t, ht, hts⟩ := hskip
      exact List.any_eq_true.mpr ⟨t, ht, by rw [hts]; decide⟩
    have hscan := @stepScan_passed_skipped e.line (s :: rest) true hall
    rw [hany] at hscan
    simp only [if_true] at hscan
    have hraw : (s :: rest).all stepRawSkipped = false := by
      apply bool_false
      intro habs
      rw [List.all_eq_true] at habs
      obtain ⟨t, ht, hts⟩ := hpass
      have h1 := habs t ht
      unfold stepRawSkipped at h1
      rw [stepRaw_of_passed hts] at h1
      exact absurd h1 (by decide)
    have he : evalElement e =
        { name := jsOrStr e.name "Unnamed scenario", line := e.line,
          passed := false, failedStep := none } := by
      unfold evalElement
      rw [evalBefore_none hb, hst, evalSteps_scan_clean hscan hraw,
        evalAfter_none ha]
    exact ⟨by rw [he], by rw [he]⟩

/-- C1 counterexample: a matched element with no hook failures and step
statuses [passed, skipped] — all passed or skipped with at least one
passed — reconciles to passed = false, where the claim demands
passed = true. -/
theorem c1_counterexample :
    findFailingHook (c1MixElement.before.getD []) = none ∧
    findFailingHook (c1MixElement.after.getD []) = none ∧
    (c1MixElement.steps.getD []).map stepStatusOf = ["passed", "skipped"] ∧
    (evalElement c1MixElement).passed = false := by
  decide

/-- C1 witness: the amended theorem applied to the all-passed element and
to the passed-plus-skipped element. -/
theorem c1_witness :
    ((evalElement c1PassElement).passed = true ∧
      (evalElement c1PassElement).failedStep = none) ∧
    ((evalElement c1MixElement).passed = false ∧
      (evalElement c1MixElement).failedStep = none) :=
  ⟨c1_skipped_step_reconciliation.1 c1PassElement [stepPassedEx] rfl rfl rfl
      (by decide) (by decide),
   c1_skipped_step_reconciliation.2.1 c1MixElement [stepPassedEx, stepSkippedEx]
      rfl rfl rfl (by decide) (by decide) (by decide)⟩

/-- C8: a before-hook list containing a non-passed hook reconciles the
element as failed with the Before Hook Failed descriptor composed from
the first such hook's location and error text, and the element's steps are
never evaluated: the outcome is the same for every steps value. -/
theorem c8_before_hook_failure (e : Element)
    (hf : ∃ hk ∈ e.before.getD [], hookFails hk = true) :
    ((evalElement e).passed = false ∧
      ∃ hk r, findFailingHook (e.before.getD []) = some (hk, r) ∧
        (evalElement e).failedStep =
          some (mkHookFailure "Before Hook Failed" hk r (jsOrNat e.line 0))) ∧
    ∀ st, evalElement { e with steps := st } = evalElement e := by
  obtain ⟨hk, r, hfind⟩ := findFailingHook_of_exists hf
  have hfinal : ∀ st, evalAfter e.line e.after
        (evalSteps e.line st (evalBefore e.line e.before)) =
      (false, some (mkHookFailure "Before Hook Failed" hk r (jsOrNat e.line 0))) := by
    intro st
    rw [evalBefore_some hfind, evalSteps_recorded, evalAfter_recorded, ite_self]
  have he : evalElement e =
      { name := jsOrStr e.name "Unnamed scenario", line := e.line, passed := false,
        failedStep :=
          some (mkHookFailure "Before Hook Failed" hk r (jsOrNat e.line 0)) } := by
    unfold evalElement
    rw [hfinal e.steps]
  refine ⟨⟨by rw [he], hk, r, hfind, by rw [he]⟩, ?_⟩
  intro st
  have h2 : evalElement { e with steps := st } =
      { name := jsOrStr e.name "Unnamed scenario", line := e.line, passed := false,
        failedStep :=
          some (mkHookFailure "Before Hook Failed" hk r (jsOrNat e.line 0)) } := by
    show ({ name := jsOrStr e.name "Unnamed scenario", line := e.line,
            passed := (evalAfter e.line e.after
              (evalSteps e.line st (evalBefore e.line e.before))).1,
            failedStep := (evalAfter e.line e.after
              (evalSteps e.line st (evalBefore e.line e.before))).2 } : ScenarioResult)
        = _
    rw [hfinal st]
  rw [h2, he]

/-- C8 witness: the before-hook theorem applied to the concrete element
with one failing before hook and an all-passed step. -/
theorem c8_witness : (evalElement c8Element).passed = false :=
  (c8_before_hook_failure c8Element (by decide)).1.1

/-- C9: structural anomalies are synthesized failures: with no before-hook
failure, an element whose steps all carry a skipped result reconciles to
failed with the Scenario Setup Error descriptor at the scenario's line,
and an element with a missing or empty step list reconciles to failed
with the Empty Scenario descriptor. -/
theorem c9_structural_anomalies :
    (∀ (e : Element) (l : List Step),
        findFailingHook (e.before.getD []) = none →
        e.steps = some l → l ≠ [] →
        (∀ s ∈ l, s.result.bind StepResult.status = some "skipped") →
        (evalElement e).passed = false ∧
        (evalElement e).failedStep = some ⟨"Scenario Setup Error",
          "All steps were skipped. Check for errors in @Before hooks or step definitions.",
          jsOrNat e.line 0⟩) ∧
    (∀ e : Element,
        findFailingHook (e.before.getD []) = none →
        (e.steps = none ∨ e.steps = some []) →
        (evalElement e).passed = false ∧
        (evalElement e).failedStep = some ⟨"Empty Scenario", "Scenario has no steps",
          jsOrNat e.line 0⟩) := by
  constructor
  · intro e l hb hst hne hall
    obtain ⟨s, rest, rfl⟩ : ∃ s rest, l = s :: rest := by
      cases l with
      | nil => exact absurd rfl hne
      | cons a as => exact ⟨a, as, rfl⟩
    have hstat : ∀ t ∈ s :: rest, stepStatusOf t = "skipped" := by
      intro t ht
      unfold stepStatusOf
      rw [hall t ht]
      decide
    have hany : (s :: rest).any (fun t => stepStatusOf t == "skipped") = true :=
      List.any_eq_true.mpr ⟨s, List.mem_cons_self s rest,
        by rw [hstat s (List.mem_cons_self s rest)]; decide⟩
    have hscan := @stepScan_passed_skipped e.line (s :: rest) true
      (fun t ht => Or.inr (hstat t ht))
    rw [hany] at hscan
    simp only [if_true] at hscan
    have hraw : (s :: rest).all stepRawSkipped = true :=
      List.all_eq_true.mpr fun t ht => by
        unfold stepRawSkipped
        rw [hall t ht]
        decide
    have he : evalElement e =
        { name := jsOrStr e.name "Unnamed scenario", line := e.line, passed := false,
          failedStep := some ⟨"Scenario Setup Error",
            "All steps were skipped. Check for errors in @Before hooks or step definitions.",
            jsOrNat e.line 0⟩ } := by
      unfold evalElement
      rw [evalBefore_none hb, hst, evalSteps_all_skipped hscan hraw,
        evalAfter_recorded, ite_self]
    exact ⟨by rw [he], by rw [he]⟩
  · intro e hb hsteps
    have he : evalElement e =
        { name := jsOrStr e.name "Unnamed scenario", line := e.line, passed := false,
          failedStep := some ⟨"Empty Scenario", "Scenario has no steps",
            jsOrNat e.line 0⟩ } := by
      unfold evalElement
      rw [evalBefore_none hb, @evalSteps_empty e.line e.steps true hsteps,
        evalAfter_recorded, ite_self]
    exact ⟨by rw [he], by rw [he]⟩

/-- C9 witness: the anomaly theorem applied to the all-skipped element and
to the zero-step element. -/
theorem c9_witness :
    ((evalElement c9AllSkippedElement).passed = false ∧
      (evalElement c9AllSkippedElement).failedStep = some ⟨"Scenario Setup Error",
        "All steps were skipped. Check for errors in @Before hooks or step definitions.",
        2⟩) ∧
    ((evalElement c9EmptyElement).passed = false ∧
      (evalElement c9EmptyElement).failedStep = some ⟨"Empty Scenario",
        "Scenario has no steps", 2⟩) :=
  ⟨c9_structural_anomalies.1 c9AllSkippedElement [stepSkippedEx, stepSkippedEx]
      rfl rfl (by decide) (by decide),
   c9_structural_anomalies.2 c9EmptyElement rfl (Or.inr rfl)⟩

/-- A report with no entry matching the target scans to no failure. -/
theorem hasFeatureFailuresCore_no_match :
    ∀ (results : List ReportFeature) (target : String),
      (∀ f ∈ results, isSameFeaturePath target (featurePathOf f) = false) →
      hasFeatureFailuresCore results target = false := by
  intro results
  induction results with
  | nil =>
    intro t _
    rfl
  | cons f rest ih =>
    intro t h
    have hf := h f (List.mem_cons_self f rest)
    have hcons : hasFeatureFailuresCore (f :: rest) t
        = if isSameFeaturePath t (featurePathOf f)
          then (match f.elements with
                | some es =>
                  (es.filter fun e => e.type ≠ some "background").any elementFails
                | none => hasFeatureFailuresCore rest t)
          else hasFeatureFailuresCore rest t := rfl
    rw [hcons, if_neg (by rw [hf]; exact Bool.false_ne_true)]
    exact ih t fun g hg => h g (List.mem_cons_of_mem f hg)

/-- A polling window in which no attempt observes a valid array fails. -/
theorem waitLoop_false {states : Nat → FileState} :
    ∀ (n a : Nat), (∀ t, a ≤ t → t < a + n → isValidArray (states t) = false) →
      waitLoop states a n = false := by
  intro n
  induction n with
  | zero =>
    intro a _
    rfl
  | succ m ih =>
    intro a h
    have h0 : isValidArray (states a) = false := h a (Nat.le_refl a) (by omega)
    have hcons : waitLoop states a (m + 1)
        = if isValidArray (states a) then true else waitLoop states (a + 1) m := rfl
    rw [hcons, if_neg (by rw [h0]; exact Bool.false_ne_true)]
    exact ih (a + 1) fun t ht1 ht2 => h t (by omega) (by omega)

/-- C2: hasFeatureFailures returns false on a structurally valid report
array with no entry matching the target (assume passed), and true when no
read within the 20 bounded attempts ever observes a valid JSON array
(fail closed). -/
theorem c2_hasFeatureFailures_defaults :
    (∀ (states : Nat → FileState) (results : List ReportFeature) (target : String),
        waitForValidJsonFile states 20 = true →
        (∀ f ∈ results, isSameFeaturePath target (featurePathOf f) = false) →
        hasFeatureFailures states (FileState.validArray results) target = false) ∧
    (∀ (states : Nat → FileState) (finalRead : FileState) (target : String),
        (∀ t, 1 ≤ t → t ≤ 20 → isValidArray (states t) = false) →
        hasFeatureFailures states finalRead target = true) := by
  constructor
  · intro states results target hwait hnm
    unfold hasFeatureFailures
    rw [if_neg (by rw [hwait]; decide)]
    exact hasFeatureFailuresCore_no_match results target hnm
  · intro states finalRead target hnever
    have hw : waitForValidJsonFile states 20 = false := by
      unfold waitForValidJsonFile
      exact waitLoop_false 20 1 fun t ht1 ht2 => hnever t ht1 (by omega)
    unfold hasFeatureFailures
    rw [if_pos hw]

/-- C2 witness: the defaults theorem applied to a valid one-entry report
that does not mention the target, and to a file that is invalid JSON at
every attempt. -/
theorem c2_witness :
    hasFeatureFailures (fun _ => FileState.validArray [c2NoMatchEntry])
        (FileState.validArray [c2NoMatchEntry]) "proj/foo.feature" = false ∧
    hasFeatureFailures (fun _ => FileState.invalidJson) FileState.invalidJson
        "proj/foo.feature" = true :=
  ⟨c2_hasFeatureFailures_defaults.1 _ [c2NoMatchEntry] "proj/foo.feature"
      (by decide) (by decide),
   c2_hasFeatureFailures_defaults.2 _ FileState.invalidJson "proj/foo.feature"
      fun t _ _ => rfl⟩

/-- C7 (amended): normalization is as claimed, and the tolerant match
succeeds with the absolute or URI form as the matcher's first argument
(the target feature path) and the workspace-relative form as the report
identity — the orientation the source's calls use. -/
theorem c7_path_matching :
    normalizePath "/home/u/proj/src/test/resources/Foo.feature"
      = "home/u/proj/src/test/resources/foo.feature" ∧
    normalizePath "file:///home/u/proj/src/test/resources/foo.feature"
      = "home/u/proj/src/test/resources/foo.feature" ∧
    normalizePath ".\\src\\test\\resources\\Foo.feature"
      = "src/test/resources/foo.feature" ∧
    isSameFeaturePath "/home/u/proj/src/test/resources/Foo.feature"
      "src/test/resources/foo.feature" = true ∧
    isSameFeaturePath "file:///home/u/proj/src/test/resources/foo.feature"
      "src/test/resources/foo.feature" = true ∧
    locateFileEntry [⟨some "src/test/resources/foo.feature", none, some []⟩]
      "/home/u/proj/src/test/resources/Foo.feature" = some [] := by
  decide

/-- C7 counterexample: in the claim's orientation — workspace-relative
target against an absolute or URI report identity — the match fails, and
locateFileEntry misses the entry. -/
theorem c7_counterexample :
    isSameFeaturePath "src/test/resources/foo.feature"
      "/home/u/proj/src/test/resources/Foo.feature" = false ∧
    isSameFeaturePath "src/test/resources/foo.feature"
      "file:///home/u/proj/src/test/resources/foo.feature" = false ∧
    locateFileEntry [⟨some "/home/u/proj/src/test/resources/Foo.feature", none, some []⟩]
      "src/test/resources/foo.feature" = none := by
  decide

end CucumberRunner
